import Mathlib

/-!
Verification of the query interpretation and hybrid-retrieval engine of
`npm-mongo-rag` (`src/chatbot.js`) against its natural-language specification.

The JavaScript source is shallowly embedded: strings are `List Char` /
`String`, the regular expressions of `chatbot.js` are translated into
deterministic character-list matchers that mirror the backtracking behaviour
of the JS engine on those particular patterns, JS objects are association
lists, and the external collaborators (MongoDB, the embedding service, the
generation service) are oracles passed to the turn functions.
-/

namespace MongoRag

/-! ## Character classes (ASCII fragment of the JS semantics) -/

/-- JS `\s` / `String.prototype.trim` whitespace, restricted to ASCII. -/
def isWs (c : Char) : Bool :=
  c = ' ' || c = '\t' || c = '\n' || c = '\x0d' || c = '\x0b' || c = '\x0c'

/-- JS `\w` / the word-boundary character class `[a-zA-Z0-9_]`. -/
def isWordChar (c : Char) : Bool :=
  ('a' ≤ c && c ≤ 'z') || ('A' ≤ c && c ≤ 'Z') || ('0' ≤ c && c ≤ '9') || c = '_'

/-- The character class `[a-z0-9_.]` with the `i` flag, i.e. `[a-zA-Z0-9_.]`,
used by `replace(/[^a-z0-9_.]/gi, "")` in `chatbot.js`. -/
def isFieldChar (c : Char) : Bool :=
  isWordChar c || c = '.'

/-- ASCII lower-casing, as performed by `toLowerCase()` and the `i` regex flag
on the ASCII inputs this program manipulates. -/
def lowerChar (c : Char) : Char :=
  if c = 'A' then 'a' else if c = 'B' then 'b' else if c = 'C' then 'c'
  else if c = 'D' then 'd' else if c = 'E' then 'e' else if c = 'F' then 'f'
  else if c = 'G' then 'g' else if c = 'H' then 'h' else if c = 'I' then 'i'
  else if c = 'J' then 'j' else if c = 'K' then 'k' else if c = 'L' then 'l'
  else if c = 'M' then 'm' else if c = 'N' then 'n' else if c = 'O' then 'o'
  else if c = 'P' then 'p' else if c = 'Q' then 'q' else if c = 'R' then 'r'
  else if c = 'S' then 's' else if c = 'T' then 't' else if c = 'U' then 'u'
  else if c = 'V' then 'v' else if c = 'W' then 'w' else if c = 'X' then 'x'
  else if c = 'Y' then 'y' else if c = 'Z' then 'z' else c

/-- Lower-case every character of a list. -/
def mapLc (cs : List Char) : List Char := cs.map lowerChar

/-- Lower-case a string (`toLowerCase()` on ASCII input). -/
def lowerStr (s : String) : String := String.mk (mapLc s.toList)

/-! ## List-of-characters helpers -/

/-- Drop a literal pattern from the front (case-sensitive); `some rest` on
success. -/
def dropPref : List Char → List Char → Option (List Char)
  | [], cs => some cs
  | _ :: _, [] => none
  | p :: ps, c :: cs => if c = p then dropPref ps cs else none

/-- Drop a literal pattern from the front, case-insensitively (the pattern is
given in lower case). -/
def dropPrefCI : List Char → List Char → Option (List Char)
  | [], cs => some cs
  | _ :: _, [] => none
  | p :: ps, c :: cs => if lowerChar c = p then dropPrefCI ps cs else none

/-- `\s+` with greedy (maximal) munch: requires at least one whitespace
character and drops the maximal whitespace run. -/
def skipWs1 : List Char → Option (List Char)
  | [] => none
  | c :: r => if isWs c then some (r.dropWhile isWs) else none

/-- Remove trailing JS whitespace. -/
def rtrimL : List Char → List Char
  | [] => []
  | c :: r =>
    match rtrimL r with
    | [] => if isWs c then [] else [c]
    | r' => c :: r'

/-- `String.prototype.trim` on character lists. -/
def trimL (cs : List Char) : List Char := rtrimL (cs.dropWhile isWs)

/-- `String.prototype.trim`. -/
def jsTrim (s : String) : String := String.mk (trimL s.toList)

/-- Last element of a character list, if any. -/
def lastOf : List Char → Option Char
  | [] => none
  | [c] => some c
  | _ :: c :: r => lastOf (c :: r)

/-- `includes(ch)` on a character list. -/
def hasChar (ch : Char) : List Char → Bool
  | [] => false
  | c :: r => c = ch || hasChar ch r

/-- A JS LineTerminator in the ASCII range (LF or CR): the characters the
regex `.` does not match. -/
def isLineTerm (c : Char) : Bool :=
  c = '\n' || c = '\x0d'

/-- Whether a character list contains a line terminator. -/
def hasLineTerm : List Char → Bool
  | [] => false
  | c :: r => isLineTerm c || hasLineTerm r

/-- Prepend a character to the first segment of a segment list. -/
def headCons (c : Char) : List (List Char) → List (List Char)
  | [] => [[c]]
  | s :: ss => (c :: s) :: ss

/-- `split(/and|,/)` (equivalently `split(/,|and/)`): split on every
occurrence of the literal substring `and` (case-sensitive, also inside
words) or of a comma, scanning left to right. -/
def splitAndComma : List Char → List (List Char)
  | [] => [[]]
  | ',' :: r => [] :: splitAndComma r
  | 'a' :: 'n' :: 'd' :: r => [] :: splitAndComma r
  | c :: r => headCons c (splitAndComma r)

/-- `split(c)` for a single-character separator (used for `split("=")` and
`split(".")`). -/
def splitOnCharL (ch : Char) : List Char → List (List Char)
  | [] => [[]]
  | c :: r => if c = ch then [] :: splitOnCharL ch r else headCons c (splitOnCharL ch r)

/-- Helper of `wordsOf`: accumulate the current (reversed) word. -/
def wordsGo (cur : List Char) : List Char → List (List Char)
  | [] => if cur = [] then [] else [cur.reverse]
  | c :: r =>
    if isWs c then
      if cur = [] then wordsGo [] r else cur.reverse :: wordsGo [] r
    else wordsGo (c :: cur) r

/-- `split(/\s+/)` on an already-trimmed string: the maximal non-whitespace
runs. (On the empty string JS returns `[""]` while this returns `[]`; both
make the caller in `chatbot.js` skip the clause, see `stepStructured`.) -/
def wordsOf (cs : List Char) : List (List Char) := wordsGo [] cs

/-- `join(sep)`. -/
def joinWith (sep : List Char) : List (List Char) → List Char
  | [] => []
  | [w] => w
  | w :: ws => w ++ sep ++ joinWith sep ws

/-- `join(sep)` for strings. -/
def joinSep (sep : String) : List String → String
  | [] => ""
  | [s] => s
  | s :: rest => s ++ sep ++ joinSep sep rest

/-! ## The regular-expression matchers of `chatbot.js` -/

/-- The tail `\s+(.+)$` of several of the program's regexes (greedy `\s+`,
then a non-empty capture that `.` cannot extend across a line terminator,
anchored at the end of the string), including the backtracking corner where
the input after the keyword consists of whitespace only. Returns the
capture group. -/
def capDotPlus (r : List Char) : Option (List Char) :=
  let w := r.takeWhile isWs
  let c := r.dropWhile isWs
  if w = [] then none
  else if c = [] then
    match lastOf r with
    | some ch => if 2 ≤ r.length && !isLineTerm ch then some [ch] else none
    | none => none
  else if hasLineTerm c then none else some c

/-- `/^list\s+unique\s+(.+)$/i` applied to the raw input (line 232 of
`chatbot.js`); returns the capture group with its original case. -/
def listUniqueMatch (cs : List Char) : Option (List Char) :=
  (dropPrefCI ['l', 'i', 's', 't'] cs).bind fun r1 =>
    (skipWs1 r1).bind fun r2 =>
      (dropPrefCI ['u', 'n', 'i', 'q', 'u', 'e'] r2).bind capDotPlus

/-- `logs\b` at the front of an (already lower-cased) character list. -/
def logsBoundary (r : List Char) : Bool :=
  match dropPref ['l', 'o', 'g', 's'] r with
  | some [] => true
  | some (c :: _) => !isWordChar c
  | none => false

/-- `/^show\s+(all\s+)?logs\b/` on an already lower-cased character list,
including the regex backtracking over the optional `(all\s+)?` group. -/
def showLogsCore (cs : List Char) : Bool :=
  match dropPref ['s', 'h', 'o', 'w'] cs with
  | none => false
  | some r1 =>
    match skipWs1 r1 with
    | none => false
    | some r2 =>
      match dropPref ['a', 'l', 'l'] r2 with
      | some r3 =>
        match skipWs1 r3 with
        | some r4 => logsBoundary r4 || logsBoundary r2
        | none => logsBoundary r2
      | none => logsBoundary r2

/-- `isShowLogsQuery` (line 53): `/^show\s+(all\s+)?logs\b/i.test(q.trim())`. -/
def isShowLogsQuery (q : String) : Bool :=
  showLogsCore (mapLc (trimL q.toList))

/-- `verb\b` for one leading verb on a lower-cased list. -/
def verbBoundary (verb : List Char) (cs : List Char) : Bool :=
  match dropPref verb cs with
  | some [] => true
  | some (c :: _) => !isWordChar c
  | none => false

/-- `/^(list|show|find)\b/` on an already lower-cased character list. -/
def leadVerbCore (cs : List Char) : Bool :=
  verbBoundary ['l', 'i', 's', 't'] cs || verbBoundary ['s', 'h', 'o', 'w'] cs ||
    verbBoundary ['f', 'i', 'n', 'd'] cs

/-- Line 253: `/^(list|show|find)\b/i.test(question.trim())`. -/
def isListShowFindLead (q : String) : Bool :=
  leadVerbCore (mapLc (trimL q.toList))

/-! ## Field aliases (lines 14–51) -/

/-- The alias table maps lower-case user-facing names to canonical paths. -/
abbrev AliasTable := List (String × String)

/-- `FIELD_ALIASES` of `chatbot.js`, in source order. -/
def FIELD_ALIASES : AliasTable :=
  [("deviceid", "DeviceId"),
   ("organizationid", "OrganizationId"),
   ("organisationid", "OrganizationId"),
   ("userid", "UserId"),
   ("tagid", "TagId"),
   ("timestamp", "Timestamp"),
   ("date", "Date"),
   ("hour", "Hour"),
   ("month", "Month"),
   ("year", "Year"),
   ("index", "Index"),
   ("appname", "AppName"),
   ("loglevel", "LogLevel"),
   ("loglabel", "LogLabel"),
   ("logsummary", "LogSummary"),
   ("createdat", "CreatedAt"),
   ("devicename", "LogData.DeviceName"),
   ("devicetype", "LogData.DeviceType"),
   ("model", "LogData.Model"),
   ("loggedevent", "LogData.LoggedEvent"),
   ("messagetype", "LogData.MessageType"),
   ("state", "LogData.State"),
   ("statecode", "LogData.StateCode"),
   ("tag", "LogData.Tag"),
   ("description", "LogData.Description"),
   ("ward", "LogData.Ward"),
   ("epochcount", "LogData.EpochCount"),
   ("executionduration", "LogData.ExecutionDuration"),
   ("timezone", "LogData.Timezone"),
   ("requestid", "LogData.RequestId"),
   ("alertcode", "LogData.TagDetail.AlertCode"),
   ("alertlevel", "LogData.TagDetail.AlertLevel"),
   ("headertime", "LogData.TagDetail.HeaderTime"),
   ("key", "LogData.TagDetail.Key"),
   ("tagdetailmessage", "LogData.TagDetail.Message"),
   ("tagdetailrequestid", "LogData.TagDetail.RequestId")]

/-- `FIELD_ALIASES[s.toLowerCase()] || s`: case-insensitive lookup with
unknown names passing through unchanged. -/
def resolveAlias (t : AliasTable) (s : String) : String :=
  (t.lookup (lowerStr s)).getD s

/-- The identifier fields of lines 64 and 103. -/
def identifierFields : List String :=
  ["DeviceId", "OrganizationId", "UserId", "TagId"]

/-! ## Filter predicates -/

/-- A MongoDB filter predicate as built by `chatbot.js`: either an exact
match on a literal string, or `{ $regex: pattern, $options: options }`. -/
inductive FilterVal where
  | str (v : String)
  | regex (pattern : String) (options : String)
deriving DecidableEq, Repr

/-- A filter mapping (a JS object used as a map). -/
abbrev Filters := List (String × FilterVal)

/-- JS object assignment `filters[k] = v`: overwrite in place if the key
exists, otherwise append. -/
def setKey (m : Filters) (k : String) (v : FilterVal) : Filters :=
  if m.any (fun p => p.1 = k) then
    m.map (fun p => if p.1 = k then (k, v) else p)
  else m ++ [(k, v)]

/-- `s.trim().replace(/['"]/g, "")`. -/
def cleanKV (cs : List Char) : List Char :=
  (trimL cs).filter (fun c => c ≠ '\'' && c ≠ '"')

/-! ## `extractFiltersOnly` (lines 56–73) -/

/-- The match attempt of `/(?:for|with|where|having)\s+(.*)/i` at one fixed
position: a keyword (alternatives in source order), at least one whitespace
character, then the greedy `(.*)` capture, which `.` cannot extend across a
line terminator. -/
def clauseCapGlobal (cs : List Char) : Option (List Char) :=
  [['f', 'o', 'r'], ['w', 'i', 't', 'h'], ['w', 'h', 'e', 'r', 'e'],
      ['h', 'a', 'v', 'i', 'n', 'g']].findSome? fun kw =>
    match dropPrefCI kw cs with
    | some r =>
      match skipWs1 r with
      | some r2 => some (r2.takeWhile (fun c => !isLineTerm c))
      | none => none
    | none => none

/-- The unanchored search of `query.match(/(?:for|with|where|having)\s+(.*)/i)`:
the leftmost position at which the clause matches wins. -/
def scanClauseGlobal : List Char → Option (List Char)
  | [] => none
  | c :: rest =>
    match clauseCapGlobal (c :: rest) with
    | some cap => some cap
    | none => scanClauseGlobal rest

/-- One `cond` of the `forEach` of lines 60–70: split on `=`, trim and strip
quotes from the first two parts, skip unless both are non-empty, then store
an exact predicate for identifier fields and a fully anchored case-insensitive
regex otherwise. -/
def stepGlobal (t : AliasTable) (fs : Filters) (cond : List Char) : Filters :=
  match (splitOnCharL '=' cond).map cleanKV with
  | [] => fs
  | [_] => fs
  | k :: v :: _ =>
    if k ≠ [] && v ≠ [] then
      let key := resolveAlias t (String.mk k)
      if identifierFields.contains key then
        setKey fs key (FilterVal.str (String.mk v))
      else
        setKey fs key (FilterVal.regex ("^" ++ String.mk v ++ "$") "i")
    else fs

/-- `extractFiltersOnly` (lines 56–73), parameterised by the alias table the
source reads from the global `FIELD_ALIASES`. -/
def extractFiltersOnlyT (t : AliasTable) (query : String) : Filters :=
  match scanClauseGlobal query.toList with
  | none => []
  | some cap => (splitAndComma cap).foldl (stepGlobal t) []

/-- `extractFiltersOnly` with the program's fixed alias table. -/
def extractFiltersOnly (query : String) : Filters :=
  extractFiltersOnlyT FIELD_ALIASES query

/-! ## `extractFieldsAndFilters` (lines 75–114) -/

/-- `^(?:list|show|find)\s+` : consume the verb and the following whitespace
run; returns the whitespace run and the remainder. -/
def verbRest (cs : List Char) : Option (List Char × List Char) :=
  [['l', 'i', 's', 't'], ['s', 'h', 'o', 'w'], ['f', 'i', 'n', 'd']].findSome? fun v =>
    (dropPrefCI v cs).bind fun r =>
      match r with
      | [] => none
      | c :: _ => if isWs c then some (r.takeWhile isWs, r.dropWhile isWs) else none

/-- The optional clause `\s+(?:where|with|having|for)\s+(.+)$` attempted at a
fixed position (keyword alternatives in source order). -/
def clauseMatchStructured (r : List Char) : Option (List Char) :=
  match skipWs1 r with
  | none => none
  | some r2 =>
    [['w', 'h', 'e', 'r', 'e'], ['w', 'i', 't', 'h'], ['h', 'a', 'v', 'i', 'n', 'g'],
        ['f', 'o', 'r']].findSome? fun kw =>
      (dropPrefCI kw r2).bind capDotPlus

/-- The lazy `(.+?)` fields group: grow the fields segment one character at a
time (never across a line terminator) and at each length first try the
optional filter clause; the shortest fields segment with a matching clause
wins. Returns `(fields segment, filter capture)`. -/
def scanSplit (acc : List Char) : List Char → Option (List Char × List Char)
  | [] => none
  | c :: rest =>
    if isLineTerm c then none
    else
      match clauseMatchStructured rest with
      | some cap => some ((c :: acc).reverse, cap)
      | none => scanSplit (c :: acc) rest

/-- Lines 83–88: split the raw fields segment on `/,|and/`, trim each token
and strip characters outside `[a-zA-Z0-9_.]`, drop empty tokens, resolve
aliases, collecting with `push`. -/
def processRawFields (t : AliasTable) (raw : List Char) : List String :=
  (splitAndComma raw).foldl
    (fun acc f =>
      let cleaned := (trimL f).filter isFieldChar
      if cleaned ≠ [] then acc ++ [resolveAlias t (String.mk cleaned)] else acc)
    []

/-- Lines 93–109: one filter token of the structured path. With an `=` the
token is split on `=` with trimming and quote-stripping; otherwise the first
whitespace-delimited word is the key and the rest (re-joined with single
spaces) is the value. Identifier fields get exact predicates, all others an
unanchored case-insensitive regex. -/
def stepStructured (t : AliasTable) (fs : Filters) (token : List Char) : Filters :=
  let kv : List Char × List Char :=
    if hasChar '=' token then
      let parts := (splitOnCharL '=' token).map cleanKV
      (parts.headD [], (parts.get? 1).getD [])
    else
      let tw := wordsOf (trimL token)
      (tw.headD [], joinWith [' '] (tw.drop 1))
  if kv.1 ≠ [] && kv.2 ≠ [] then
    let key := resolveAlias t (String.mk kv.1)
    if identifierFields.contains key then
      setKey fs key (FilterVal.str (String.mk kv.2))
    else
      setKey fs key (FilterVal.regex (String.mk kv.2) "i")
  else fs

/-- Lines 90–110. -/
def processRawFilter (t : AliasTable) (raw : List Char) : Filters :=
  (splitAndComma raw).foldl (stepStructured t) []

/-- `extractFieldsAndFilters` (lines 75–114): match
`/^(?:list|show|find)\s+(.+?)(?:\s+(?:where|with|having|for)\s+(.+))?$/i`
and process the two captures; on no match return `([], {})`. -/
def extractFieldsAndFiltersT (t : AliasTable) (query : String) : List String × Filters :=
  match verbRest query.toList with
  | none => ([], [])
  | some (w, rest) =>
    match rest with
    | [] =>
      -- backtracking corner: everything after the verb is whitespace, so the
      -- lazy `(.+?)` can only capture the last whitespace character
      match lastOf w with
      | some ch =>
        if 2 ≤ w.length && !isLineTerm ch then (processRawFields t [ch], []) else ([], [])
      | none => ([], [])
    | c :: cs =>
      match scanSplit [] (c :: cs) with
      | some (fldRaw, filtRaw) => (processRawFields t fldRaw, processRawFilter t filtRaw)
      | none =>
        if hasLineTerm (c :: cs) then ([], [])
        else (processRawFields t (c :: cs), [])

/-- `extractFieldsAndFilters` with the program's fixed alias table. -/
def extractFieldsAndFilters (query : String) : List String × Filters :=
  extractFieldsAndFiltersT FIELD_ALIASES query

/-! ## The `list unique` handler (lines 232–235) -/

/-- Lines 232–235: on a `list unique` match, trim the capture, strip
characters outside `[a-zA-Z0-9_.]` and resolve the alias. `none` when the
input is not a `list unique` query. -/
def uniqueFieldOfT (t : AliasTable) (q : String) : Option String :=
  (listUniqueMatch q.toList).map fun cap =>
    resolveAlias t (String.mk ((trimL cap).filter isFieldChar))

/-- The `list unique` field with the program's fixed alias table. -/
def uniqueFieldOf (q : String) : Option String :=
  uniqueFieldOfT FIELD_ALIASES q

/-! ## The query classifier (the dispatch order of `main`, lines 210–287) -/

/-- The four intents of the specification. -/
inductive Intent where
  | showAllLogs
  | listUniqueField
  | structuredList
  | semanticFallback
deriving DecidableEq, Repr

/-- The dispatch order of the turn body of `main`: `isShowLogsQuery` first
(line 212), then the `list unique` match (line 232), then the leading-verb
test (line 253), then the RAG fallback (line 282). -/
def classify (q : String) : Intent :=
  if isShowLogsQuery q then Intent.showAllLogs
  else if (listUniqueMatch q.toList).isSome then Intent.listUniqueField
  else if isListShowFindLead q then Intent.structuredList
  else Intent.semanticFallback

/-! ## Specification-side classifier (§4.2 of the spec)

Modelled from the spec's words: an ordered decision table of
(predicate, intent) pairs over a raw, **trimmed** question string, evaluated
first-match-wins. The three patterns are the spec's patterns 1–3, applied
without any internal trimming (the spec's input is already trimmed). -/

/-- Spec pattern 1: matches `show [all] logs` (optionally followed by a
filter clause), case-insensitively. -/
def specShowAllLogs (q : String) : Bool := showLogsCore (mapLc q.toList)

/-- Spec pattern 2: matches `list unique <field>`, case-insensitively. -/
def specListUnique (q : String) : Bool := (listUniqueMatch q.toList).isSome

/-- Spec pattern 3: a leading `list`, `show` or `find` token,
case-insensitively. -/
def specLeadVerb (q : String) : Bool := leadVerbCore (mapLc q.toList)

/-- §9 design note: the classifier as an ordered list of (predicate, intent)
pairs evaluated in sequence. -/
def specDecisionTable : List ((String → Bool) × Intent) :=
  [(specShowAllLogs, Intent.showAllLogs),
   (specListUnique, Intent.listUniqueField),
   (specLeadVerb, Intent.structuredList)]

/-- The spec-side classifier: first matching pattern wins, otherwise the
semantic fallback. -/
def specClassify (q : String) : Intent :=
  match specDecisionTable.find? (fun pi => pi.1 q) with
  | some pi => pi.2
  | none => Intent.semanticFallback

/-! ## JS values and documents -/

/-- A JavaScript value, as far as this program observes them: the log
records are objects (association lists, first binding wins as JS keys are
unique) whose leaves are strings, numbers, booleans, `null` or nested
objects/arrays; `undefined` is the result of a missing property. -/
inductive Value where
  | vUndef
  | vNull
  | vBool (b : Bool)
  | vNum (n : Int)
  | vStr (s : String)
  | vObj (fields : List (String × Value))
  | vArr (elems : List Value)

/-- A MongoDB document (a JS object). -/
abbrev Doc := List (String × Value)

/-- JS truthiness: `undefined`, `null`, `false`, `0` and `""` are falsy. -/
def jsFalsy : Value → Bool
  | Value.vUndef => true
  | Value.vNull => true
  | Value.vBool b => !b
  | Value.vNum n => n = 0
  | Value.vStr s => s = ""
  | _ => false

/-- `null` or `undefined` (the values replaced by `??`). -/
def nullish : Value → Bool
  | Value.vUndef => true
  | Value.vNull => true
  | _ => false

/-- Property access `v[k]` on a non-nullish value: objects look the key up,
anything else yields `undefined`. (The program only applies unguarded access
to Mongo documents, which are objects.) -/
def getField (v : Value) (k : String) : Value :=
  match v with
  | Value.vObj fs =>
    match fs.lookup k with
    | some w => w
    | none => Value.vUndef
  | _ => Value.vUndef

/-- Optional chaining `v?.k`: short-circuits `null`/`undefined` to
`undefined`. -/
def optGet (v : Value) (k : String) : Value :=
  match v with
  | Value.vNull => Value.vUndef
  | Value.vUndef => Value.vUndef
  | _ => getField v k

mutual

/-- JS `String(x)` string coercion as used in template literals. -/
def jsStr : Value → String
  | Value.vUndef => "undefined"
  | Value.vNull => "null"
  | Value.vBool b => cond b "true" "false"
  | Value.vNum n => toString n
  | Value.vStr s => s
  | Value.vObj _ => "[object Object]"
  | Value.vArr es => jsStrList es

/-- `Array.prototype.toString`: elements joined by commas, with `null` and
`undefined` elements rendered empty. -/
def jsStrList : List Value → String
  | [] => ""
  | [e] => jsStrElem e
  | e :: es => jsStrElem e ++ "," ++ jsStrList es

/-- One array element inside `join(",")`. -/
def jsStrElem : Value → String
  | Value.vNull => ""
  | Value.vUndef => ""
  | v => jsStr v

end

/-! ## `formatContext` (lines 181–187) -/

/-- The fixed template of line 184 for one retrieved document, with the
1-based ordinal header. Top-level fields are plain accesses, the nested
`LogData` fields use optional chaining. -/
def contextBlock (i : Nat) (doc : Value) : String :=
  "# Log " ++ toString (i + 1) ++
  "\nDeviceId: " ++ jsStr (getField doc "DeviceId") ++
  "\nSummary: " ++ jsStr (getField doc "LogSummary") ++
  "\nState: " ++ jsStr (optGet (optGet doc "LogData") "State") ++
  "\nModel: " ++ jsStr (optGet (optGet doc "LogData") "Model") ++
  "\nWard: " ++ jsStr (optGet (optGet doc "LogData") "Ward") ++
  "\nTimestamp: " ++ jsStr (getField doc "Timestamp")

/-- `docs.map((doc, i) => ...)` with the running index. -/
def contextBlocks (i : Nat) : List Value → List String
  | [] => []
  | d :: ds => contextBlock i d :: contextBlocks (i + 1) ds

/-- `formatContext` (lines 181–187): the blocks joined by a blank line. -/
def formatContext (docs : List Value) : String :=
  joinSep "\n\n" (contextBlocks 0 docs)

/-! ## Structured-result row flattening (lines 266–275) -/

/-- The value reached for one requested field: for dotted paths the loop
`for (const p of parts) val = val && val[p]`, otherwise a single access. -/
def pathValue (res : Value) (f : String) : Value :=
  if hasChar '.' f.toList then
    ((splitOnCharL '.' f.toList).map String.mk).foldl
      (fun v p => if jsFalsy v then v else getField v p) res
  else getField res f

/-- One row cell: the reached value with `?? ""` applied. -/
def flattenField (res : Value) (f : String) : Value :=
  let v := pathValue res f
  if nullish v then Value.vStr "" else v

/-- One table row: `fields.map(f => ...)`. -/
def flattenRow (fields : List String) (res : Value) : List Value :=
  fields.map (flattenField res)

/-! ## The show-all-logs full dump (lines 212–228) -/

/-- The rest-destructuring `const { embedding, ...docWithoutEmbedding } = doc`:
every own property except `embedding`, order preserved. -/
def stripEmbedding (d : Doc) : Doc :=
  d.filter (fun p => p.1 ≠ "embedding")

/-- The documents displayed by the full dump: the storage result of
`collection.find(filters).limit(50)` (the limit caps the cursor at 50) with
the embedding removed from each document before printing. The storage
backend is the oracle `store`. -/
def dumpDisplayed (store : Filters → List Doc) (q : String) : List Doc :=
  ((store (extractFiltersOnly q)).take 50).map stripEmbedding

/-! ## The semantic-fallback turn (lines 137–169, 171–179, 281–287) -/

/-- The `$vectorSearch` stage built by `searchSimilarLogs` (lines 150–163).
`queryVector` is optional because `generateEmbedding` returns
`res.data.embedding`, which is absent when the service response has no
vector field. -/
structure VectorStage where
  index : String
  path : String
  queryVector : Option (List Int)
  numCandidates : Nat
  similarity : String
  limit : Nat
  filter : Option Filters
deriving DecidableEq, Repr

/-- Lines 150–163: the stage constant fields, with the filter attached only
when the filter mapping is non-empty. -/
def mkVectorStage (emb : Option (List Int)) (filters : Filters) : VectorStage :=
  { index := "vector_index"
    path := "embedding"
    queryVector := emb
    numCandidates := 100
    similarity := "cosine"
    limit := 15
    filter := if filters.length > 0 then some filters else none }

/-- The embedding-service response body (`res.data`): the `embedding` field
may be missing. -/
structure EmbedResp where
  embedding : Option (List Int)

/-- The prompt of `askMistral` (line 172). -/
def mkPrompt (context question : String) : String :=
  "You are an assistant helping debug medical device logs. " ++
  "Use the context to answer the user's question.\n\nContext:\n" ++ context ++
  "\n\nQuestion: " ++ question ++ "\n\nAnswer:"

/-- The observable events of one semantic-fallback turn. -/
inductive Ev where
  | embedReq (text : String)
  | search (stage : VectorStage)
  | gen (context : String) (question : String)
  | answer (text : String)
  | errorReport (msg : String)
deriving DecidableEq, Repr

/-- The external collaborators of the fallback path: the embedding service
(an HTTP error or a response body), the storage aggregate, and the
generation service. -/
structure Oracles where
  embed : String → Except String EmbedResp
  search : VectorStage → Except String (List Value)
  gen : String → Except String String

/-- The RAG fallback of `main` (lines 281–287) inside its try/catch: request
an embedding, run the similarity search with the **default empty** filter
mapping, build the context, call the generator; any thrown error is caught
at the top of the turn loop and reported (line 289). -/
def ragTurn (o : Oracles) (question : String) : List Ev :=
  Ev.embedReq question ::
    match o.embed question with
    | Except.error e => [Ev.errorReport e]
    | Except.ok resp =>
      let stage := mkVectorStage resp.embedding []
      Ev.search stage ::
        match o.search stage with
        | Except.error e => [Ev.errorReport e]
        | Except.ok docs =>
          let context := formatContext docs
          Ev.gen context question ::
            match o.gen (mkPrompt context question) with
            | Except.error e => [Ev.errorReport e]
            | Except.ok a => [Ev.answer a]

/-! ## Session model (for state-independence of the pure analysis) -/

/-- The pure analysis the program performs on one input line: the classifier
and both extractors, all reading the same alias table. -/
structure TurnAnalysis where
  intent : Intent
  structured : List String × Filters
  globalFilters : Filters
deriving DecidableEq

/-- Analyse one input line against an alias table state. -/
def analyzeTurn (t : AliasTable) (q : String) : TurnAnalysis :=
  { intent :=
      if isShowLogsQuery q then Intent.showAllLogs
      else if (listUniqueMatch q.toList).isSome then Intent.listUniqueField
      else if isListShowFindLead q then Intent.structuredList
      else Intent.semanticFallback
    structured := extractFieldsAndFiltersT t q
    globalFilters := extractFiltersOnlyT t q }

/-- One turn of the interactive loop, threading the alias-table state: the
source only ever reads the `const FIELD_ALIASES`, so the state is returned
unchanged. -/
def turnStep (t : AliasTable) (q : String) : TurnAnalysis × AliasTable :=
  (analyzeTurn t q, t)

/-- The interactive session over a list of input lines, threading the
alias-table state from turn to turn. -/
def runSession : AliasTable → List String → List TurnAnalysis
  | _, [] => []
  | t, q :: qs =>
    let (a, t') := turnStep t q
    a :: runSession t' qs

/-! # Lemmas -/

/-! ## Case lemmas -/

/-- The ASCII upper-case letters. -/
def upperLetters : List Char :=
  ['A', 'B', 'C', 'D', 'E', 'F', 'G', 'H', 'I', 'J', 'K', 'L', 'M',
   'N', 'O', 'P', 'Q', 'R', 'S', 'T', 'U', 'V', 'W', 'X', 'Y', 'Z']

/-- The ASCII lower-case letters. -/
def lowerLetters : List Char :=
  ['a', 'b', 'c', 'd', 'e', 'f', 'g', 'h', 'i', 'j', 'k', 'l', 'm',
   'n', 'o', 'p', 'q', 'r', 's', 't', 'u', 'v', 'w', 'x', 'y', 'z']

theorem lowerChar_cases (c : Char) :
    lowerChar c = c ∨ (c ∈ upperLetters ∧ lowerChar c ∈ lowerLetters) := by
  by_cases hc : c ∈ upperLetters
  · refine Or.inr ⟨hc, ?_⟩
    fin_cases hc <;> decide
  · left
    simp only [upperLetters, List.mem_cons, List.not_mem_nil, or_false, not_or] at hc
    obtain ⟨h1, h2, h3, h4, h5, h6, h7, h8, h9, h10, h11, h12, h13, h14, h15, h16, h17,
      h18, h19, h20, h21, h22, h23, h24, h25, h26⟩ := hc
    unfold lowerChar
    simp [h1, h2, h3, h4, h5, h6, h7, h8, h9, h10, h11, h12, h13, h14, h15, h16, h17,
      h18, h19, h20, h21, h22, h23, h24, h25, h26]

theorem isWs_lowerChar (c : Char) : isWs (lowerChar c) = isWs c := by
  rcases lowerChar_cases c with h | ⟨h1, h2⟩
  · rw [h]
  · have hu : ∀ x ∈ upperLetters, isWs x = false := by decide
    have hl : ∀ x ∈ lowerLetters, isWs x = false := by decide
    rw [hu c h1, hl _ h2]

theorem isWordChar_lowerChar (c : Char) : isWordChar (lowerChar c) = isWordChar c := by
  rcases lowerChar_cases c with h | ⟨h1, h2⟩
  · rw [h]
  · have hu : ∀ x ∈ upperLetters, isWordChar x = true := by decide
    have hl : ∀ x ∈ lowerLetters, isWordChar x = true := by decide
    rw [hu c h1, hl _ h2]

theorem isLineTerm_lowerChar (c : Char) : isLineTerm (lowerChar c) = isLineTerm c := by
  rcases lowerChar_cases c with h | ⟨h1, h2⟩
  · rw [h]
  · have hu : ∀ x ∈ upperLetters, isLineTerm x = false := by decide
    have hl : ∀ x ∈ lowerLetters, isLineTerm x = false := by decide
    rw [hu c h1, hl _ h2]

theorem lowerChar_idem (c : Char) : lowerChar (lowerChar c) = lowerChar c := by
  rcases lowerChar_cases c with h | ⟨_, h2⟩
  · rw [h, h]
  · have hl : ∀ x ∈ lowerLetters, lowerChar x = x := by decide
    exact hl _ h2

/-! ## Commutation of the matchers with lower-casing -/

theorem mapLc_idem (l : List Char) : mapLc (mapLc l) = mapLc l := by
  induction l with
  | nil => rfl
  | cons a l ih =>
    simp only [mapLc, List.map_cons] at ih ⊢
    rw [lowerChar_idem, ih]

theorem dropWhile_isWs_mapLc (l : List Char) :
    (mapLc l).dropWhile isWs = mapLc (l.dropWhile isWs) := by
  induction l with
  | nil => rfl
  | cons a l ih =>
    simp only [mapLc, List.map_cons, List.dropWhile_cons, isWs_lowerChar]
    by_cases h : isWs a
    · simpa [h] using ih
    · simp [h, mapLc]

theorem takeWhile_isWs_mapLc (l : List Char) :
    (mapLc l).takeWhile isWs = mapLc (l.takeWhile isWs) := by
  induction l with
  | nil => rfl
  | cons a l ih =>
    simp only [mapLc, List.map_cons, List.takeWhile_cons, isWs_lowerChar]
    by_cases h : isWs a
    · simpa [h, mapLc] using ih
    · simp [h, mapLc]

theorem rtrimL_mapLc (l : List Char) : rtrimL (mapLc l) = mapLc (rtrimL l) := by
  induction l with
  | nil => rfl
  | cons c r ih =>
    simp only [mapLc, List.map_cons, rtrimL]
    rw [show rtrimL (List.map lowerChar r) = mapLc (rtrimL r) from ih]
    cases h : rtrimL r with
    | nil => simp [mapLc, isWs_lowerChar]; split <;> simp [mapLc]
    | cons x xs => simp [mapLc]

theorem trimL_mapLc (l : List Char) : trimL (mapLc l) = mapLc (trimL l) := by
  unfold trimL
  rw [dropWhile_isWs_mapLc, rtrimL_mapLc]

theorem dropPrefCI_mapLc (p : List Char) (cs : List Char) :
    dropPrefCI p (mapLc cs) = (dropPrefCI p cs).map mapLc := by
  induction p generalizing cs with
  | nil => rfl
  | cons x ps ih =>
    cases cs with
    | nil => rfl
    | cons c r =>
      simp only [mapLc, List.map_cons, dropPrefCI, lowerChar_idem]
      by_cases h : lowerChar c = x
      · simp only [h, if_pos rfl]
        exact ih r
      · simp [h]

theorem skipWs1_mapLc (cs : List Char) :
    skipWs1 (mapLc cs) = (skipWs1 cs).map mapLc := by
  cases cs with
  | nil => rfl
  | cons c r =>
    simp only [mapLc, List.map_cons, skipWs1, isWs_lowerChar]
    by_cases h : isWs c
    · simp only [h, if_pos rfl, Option.map_some]
      rw [show (List.map lowerChar r).dropWhile isWs = mapLc (r.dropWhile isWs) from
        dropWhile_isWs_mapLc r]
      rfl
    · simp [h]

theorem lastOf_mapLc (l : List Char) : lastOf (mapLc l) = (lastOf l).map lowerChar := by
  induction l with
  | nil => rfl
  | cons c r ih =>
    cases r with
    | nil => rfl
    | cons d s =>
      simp only [mapLc, List.map_cons, lastOf] at ih ⊢
      exact ih

theorem hasLineTerm_mapLc (l : List Char) :
    hasLineTerm (mapLc l) = hasLineTerm l := by
  induction l with
  | nil => rfl
  | cons c r ih =>
    simp only [mapLc, List.map_cons, hasLineTerm] at ih ⊢
    rw [ih, isLineTerm_lowerChar]

theorem mapLc_eq_nil (l : List Char) : (mapLc l = []) = (l = []) := by
  cases l <;> simp [mapLc]

theorem mapLc_length (l : List Char) : (mapLc l).length = l.length := by
  simp [mapLc]

theorem capDotPlus_mapLc (r : List Char) :
    capDotPlus (mapLc r) = (capDotPlus r).map mapLc := by
  simp only [capDotPlus, takeWhile_isWs_mapLc, dropWhile_isWs_mapLc, lastOf_mapLc,
    hasLineTerm_mapLc, mapLc_eq_nil, mapLc_length]
  by_cases h1 : List.takeWhile isWs r = []
  · simp only [if_pos h1, Option.map_none']
  · simp only [if_neg h1]
    by_cases h2 : List.dropWhile isWs r = []
    · simp only [if_pos h2]
      cases hl : lastOf r with
      | none => simp
      | some ch =>
        simp only [Option.map_some']
        rw [isLineTerm_lowerChar]
        by_cases h3 : (decide (2 ≤ r.length) && !isLineTerm ch) = true
        · simp only [if_pos h3, Option.map_some', mapLc, List.map_cons, List.map_nil]
        · simp only [if_neg h3, Option.map_none']
    · simp only [if_neg h2]
      by_cases h3 : hasLineTerm (List.dropWhile isWs r) = true
      · simp only [if_pos h3, Option.map_none']
      · simp only [if_neg h3, Option.map_some']

theorem listUniqueMatch_mapLc (cs : List Char) :
    listUniqueMatch (mapLc cs) = (listUniqueMatch cs).map mapLc := by
  unfold listUniqueMatch
  rw [dropPrefCI_mapLc]
  cases h1 : dropPrefCI ['l', 'i', 's', 't'] cs with
  | none => rfl
  | some r1 =>
    simp only [Option.map_some', Option.some_bind]
    rw [skipWs1_mapLc]
    cases h2 : skipWs1 r1 with
    | none => rfl
    | some r2 =>
      simp only [Option.map_some', Option.some_bind]
      rw [dropPrefCI_mapLc]
      cases h3 : dropPrefCI ['u', 'n', 'i', 'q', 'u', 'e'] r2 with
      | none => rfl
      | some r3 =>
        simp only [Option.map_some', Option.some_bind]
        exact capDotPlus_mapLc r3

/-! ## Case-invariance of the classifier -/

theorem isShowLogsQuery_congr (q q' : String) (h : mapLc q.toList = mapLc q'.toList) :
    isShowLogsQuery q = isShowLogsQuery q' := by
  unfold isShowLogsQuery
  rw [← trimL_mapLc, ← trimL_mapLc, h]

theorem isListShowFindLead_congr (q q' : String) (h : mapLc q.toList = mapLc q'.toList) :
    isListShowFindLead q = isListShowFindLead q' := by
  unfold isListShowFindLead
  rw [← trimL_mapLc, ← trimL_mapLc, h]

theorem listUniqueMatch_isSome_congr {cs cs' : List Char} (h : mapLc cs = mapLc cs') :
    (listUniqueMatch cs).isSome = (listUniqueMatch cs').isSome := by
  have h1 := listUniqueMatch_mapLc cs
  have h2 := listUniqueMatch_mapLc cs'
  have hm : (listUniqueMatch cs).map mapLc = (listUniqueMatch cs').map mapLc := by
    rw [← h1, ← h2, h]
  cases hcs : listUniqueMatch cs <;> cases hcs' : listUniqueMatch cs' <;> simp_all

theorem classify_congr_lc (q q' : String) (h : mapLc q.toList = mapLc q'.toList) :
    classify q = classify q' := by
  unfold classify
  rw [isShowLogsQuery_congr q q' h, listUniqueMatch_isSome_congr h,
    isListShowFindLead_congr q q' h]

/-! ## The classifier agrees with the spec's decision table on trimmed input -/

theorem classify_spec_of_trimmed (q : String) (hq : jsTrim q = q) :
    classify q = specClassify q := by
  have htrim : trimL q.toList = q.toList := congrArg String.toList hq
  unfold classify specClassify specDecisionTable isShowLogsQuery isListShowFindLead
    specShowAllLogs specLeadVerb specListUnique
  rw [htrim]
  cases h1 : showLogsCore (mapLc q.toList) <;>
    cases h2 : (listUniqueMatch q.toList).isSome <;>
      cases h3 : leadVerbCore (mapLc q.toList) <;>
        (simp only [String.toList] at h1 h2 h3 ⊢; simp [List.find?, h1, h2, h3])

/-! ## `show [all] logs` absorbs any suffix -/

theorem rtrimL_append (xs ys : List Char) :
    rtrimL (xs ++ ys) = if rtrimL ys = [] then rtrimL xs else xs ++ rtrimL ys := by
  induction xs with
  | nil =>
    by_cases h : rtrimL ys = [] <;> simp [h, rtrimL]
  | cons c xs ih =>
    by_cases h : rtrimL ys = []
    · rw [if_pos h, List.cons_append, rtrimL, rtrimL, ih, if_pos h]
    · rw [if_neg h, List.cons_append, rtrimL, ih, if_neg h]
      cases hys : rtrimL ys with
      | nil => exact absurd hys h
      | cons y ys' => cases xs <;> simp

theorem rtrimL_cons_ws_ne_nil {c : Char} {sd : List Char} (hc : isWs c = true)
    (h : rtrimL (c :: sd) ≠ []) : rtrimL (c :: sd) = c :: rtrimL sd := by
  rw [rtrimL] at h ⊢
  cases hsd : rtrimL sd with
  | nil => rw [hsd] at h; simp [hc] at h
  | cons y ys => rfl

theorem mapLc_append (a b : List Char) : mapLc (a ++ b) = mapLc a ++ mapLc b := by
  simp [mapLc]

theorem isShowLogsQuery_show_logs_append (s : String) :
    isShowLogsQuery ("show logs " ++ s) = true := by
  unfold isShowLogsQuery trimL
  have h0 : ("show logs " ++ s).toList
      = ['s', 'h', 'o', 'w', ' ', 'l', 'o', 'g', 's'] ++ (' ' :: s.toList) := rfl
  rw [h0]
  have hns : isWs 's' = false := by decide
  have h1 : List.dropWhile isWs (['s', 'h', 'o', 'w', ' ', 'l', 'o', 'g', 's'] ++ (' ' :: s.toList))
      = ['s', 'h', 'o', 'w', ' ', 'l', 'o', 'g', 's'] ++ (' ' :: s.toList) := by
    rw [show (['s', 'h', 'o', 'w', ' ', 'l', 'o', 'g', 's'] ++ (' ' :: s.toList))
        = 's' :: (['h', 'o', 'w', ' ', 'l', 'o', 'g', 's'] ++ (' ' :: s.toList)) from rfl,
      List.dropWhile_cons, hns]
    simp
  rw [h1, rtrimL_append]
  by_cases h : rtrimL (' ' :: s.toList) = []
  · rw [if_pos h,
      show rtrimL ['s', 'h', 'o', 'w', ' ', 'l', 'o', 'g', 's']
        = ['s', 'h', 'o', 'w', ' ', 'l', 'o', 'g', 's'] from by decide]
    decide
  · rw [if_neg h, rtrimL_cons_ws_ne_nil (by decide) h, mapLc_append,
      show mapLc ['s', 'h', 'o', 'w', ' ', 'l', 'o', 'g', 's']
        = ['s', 'h', 'o', 'w', ' ', 'l', 'o', 'g', 's'] from by decide,
      show mapLc (' ' :: rtrimL s.toList) = ' ' :: mapLc (rtrimL s.toList) from by
        simp [mapLc, show lowerChar ' ' = ' ' from by decide]]
    rfl

theorem isShowLogsQuery_show_all_logs_append (s : String) :
    isShowLogsQuery ("show all logs " ++ s) = true := by
  unfold isShowLogsQuery trimL
  have h0 : ("show all logs " ++ s).toList
      = ['s', 'h', 'o', 'w', ' ', 'a', 'l', 'l', ' ', 'l', 'o', 'g', 's'] ++ (' ' :: s.toList) := rfl
  rw [h0]
  have hns : isWs 's' = false := by decide
  have h1 : List.dropWhile isWs
        (['s', 'h', 'o', 'w', ' ', 'a', 'l', 'l', ' ', 'l', 'o', 'g', 's'] ++ (' ' :: s.toList))
      = ['s', 'h', 'o', 'w', ' ', 'a', 'l', 'l', ' ', 'l', 'o', 'g', 's'] ++ (' ' :: s.toList) := by
    rw [show (['s', 'h', 'o', 'w', ' ', 'a', 'l', 'l', ' ', 'l', 'o', 'g', 's'] ++ (' ' :: s.toList))
        = 's' :: (['h', 'o', 'w', ' ', 'a', 'l', 'l', ' ', 'l', 'o', 'g', 's'] ++ (' ' :: s.toList))
        from rfl,
      List.dropWhile_cons, hns]
    simp
  rw [h1, rtrimL_append]
  by_cases h : rtrimL (' ' :: s.toList) = []
  · rw [if_pos h,
      show rtrimL ['s', 'h', 'o', 'w', ' ', 'a', 'l', 'l', ' ', 'l', 'o', 'g', 's']
        = ['s', 'h', 'o', 'w', ' ', 'a', 'l', 'l', ' ', 'l', 'o', 'g', 's'] from by decide]
    decide
  · rw [if_neg h, rtrimL_cons_ws_ne_nil (by decide) h, mapLc_append,
      show mapLc ['s', 'h', 'o', 'w', ' ', 'a', 'l', 'l', ' ', 'l', 'o', 'g', 's']
        = ['s', 'h', 'o', 'w', ' ', 'a', 'l', 'l', ' ', 'l', 'o', 'g', 's'] from by decide,
      show mapLc (' ' :: rtrimL s.toList) = ' ' :: mapLc (rtrimL s.toList) from by
        simp [mapLc, show lowerChar ' ' = ' ' from by decide]]
    rfl

/-! # Claims -/

/-- C1: For every raw input string, the Query Classifier's decision follows
the specified order with first match winning, case-insensitively: on a
trimmed input (the spec's input contract) the code's dispatch equals the
spec's ordered decision table (`show [all] logs` first, then
`list unique <field>`, then a leading `list`/`show`/`find` token, otherwise
the semantic fallback); classification is invariant under letter case; and
an input beginning `show logs ` or `show all logs ` is classified
show-all-logs whatever follows (in particular any filter clause). -/
theorem C1_classifier_decision_order :
    (∀ q : String, jsTrim q = q → classify q = specClassify q) ∧
    (∀ q q' : String, lowerStr q = lowerStr q' → classify q = classify q') ∧
    (∀ s : String, classify ("show logs " ++ s) = Intent.showAllLogs ∧
      classify ("show all logs " ++ s) = Intent.showAllLogs) := by
  refine ⟨classify_spec_of_trimmed, ?_, ?_⟩
  · intro q q' h
    exact classify_congr_lc q q' (congrArg String.toList h)
  · intro s
    constructor
    · unfold classify
      rw [isShowLogsQuery_show_logs_append]
      simp
    · unfold classify
      rw [isShowLogsQuery_show_all_logs_append]
      simp

/-- Witness for C1 at concrete inputs. -/
theorem C1_classifier_decision_order_witness :
    classify "list unique ward" = specClassify "list unique ward" ∧
    classify "SHOW ALL LOGS FOR deviceid=ABC123" = classify "show all logs for deviceid=abc123" :=
  ⟨C1_classifier_decision_order.1 "list unique ward" (by decide),
   C1_classifier_decision_order.2.1 "SHOW ALL LOGS FOR deviceid=ABC123"
     "show all logs for deviceid=abc123" (by decide)⟩

/-! ## Session determinism (C10) -/

theorem runSession_eq_map (t : AliasTable) (qs : List String) :
    runSession t qs = qs.map (analyzeTurn t) := by
  induction qs with
  | nil => rfl
  | cons q qs ih => simp [runSession, turnStep, ih]

/-- C10: classification and extraction are deterministic pure functions of
the input string: across a whole interactive session threaded through the
(never-mutated) alias-table state, two turns with the same input line
produce identical analyses (intent, field list and both filter mappings). -/
theorem C10_analysis_deterministic :
    ∀ (inputs : List String) (i j : Nat), inputs.get? i = inputs.get? j →
      (runSession FIELD_ALIASES inputs).get? i = (runSession FIELD_ALIASES inputs).get? j := by
  intro inputs i j h
  rw [runSession_eq_map, List.get?_map, List.get?_map, h]

/-- Witness for C10: the first and third turns of a concrete session with a
repeated input line get the same analysis. -/
theorem C10_analysis_deterministic_witness :
    (runSession FIELD_ALIASES ["list deviceid and model", "show logs", "list deviceid and model"]).get? 0
      = (runSession FIELD_ALIASES ["list deviceid and model", "show logs", "list deviceid and model"]).get? 2 :=
  C10_analysis_deterministic ["list deviceid and model", "show logs", "list deviceid and model"]
    0 2 (by decide)


/-! ## The semantic-fallback turn (C3, C8, C9) -/

/-- The embedding service answers 200 OK with a well-formed body that has no
`embedding` field; storage and generation succeed. -/
def oMissingVector : Oracles :=
  { embed := fun _ => Except.ok ⟨none⟩
    search := fun _ => Except.ok []
    gen := fun _ => Except.ok "generated answer" }

/-- C3 (code bug evidence): when the embedding response is well-formed but
missing the vector field, `generateEmbedding` returns `undefined` without
throwing and the turn proceeds: it sends a `$vectorSearch` stage whose
`queryVector` is absent, builds the (empty) context and calls the generator,
with no error reported — it does not abort the turn as the spec requires. -/
theorem C3_missing_vector_turn_proceeds :
    ragTurn oMissingVector "What errors occurred yesterday?" =
      [Ev.embedReq "What errors occurred yesterday?",
       Ev.search (mkVectorStage none []),
       Ev.gen "" "What errors occurred yesterday?",
       Ev.answer "generated answer"] ∧
    (Ev.gen "" "What errors occurred yesterday?"
        ∈ ragTurn oMissingVector "What errors occurred yesterday?") :=
  ⟨rfl, by decide⟩

/-- C8: if the embedding succeeds and the similarity search returns zero
records, the turn still invokes the generator, with the empty context block
and the original question; the empty context block is the empty string. -/
theorem C8_empty_context_still_generates :
    ∀ (o : Oracles) (q : String) (v : List Int),
      o.embed q = Except.ok ⟨some v⟩ →
      o.search (mkVectorStage (some v) []) = Except.ok [] →
      Ev.gen (formatContext []) q ∈ ragTurn o q ∧ formatContext [] = "" := by
  intro o q v he hs
  refine ⟨?_, rfl⟩
  unfold ragTurn
  simp only [he, hs]
  cases hg : o.gen (mkPrompt (formatContext []) q) <;> simp [hg]

/-- Oracle for the C8 witness. -/
def oEmptyResults : Oracles :=
  { embed := fun _ => Except.ok ⟨some [2]⟩
    search := fun _ => Except.ok []
    gen := fun _ => Except.ok "I do not know" }

/-- Witness for C8 at a concrete oracle. -/
theorem C8_empty_context_still_generates_witness :
    Ev.gen (formatContext []) "any news?" ∈ ragTurn oEmptyResults "any news?" ∧
      formatContext [] = "" :=
  C8_empty_context_still_generates oEmptyResults "any news?" [2] rfl rfl

/-- C9: on every semantic-fallback turn the `$vectorSearch` stage sent to
storage carries no filter: the stage includes a filter only for a non-empty
filter mapping, and the fallback always calls the search with the default
empty mapping. -/
theorem C9_fallback_search_unfiltered :
    (∀ (o : Oracles) (q : String) (stage : VectorStage),
        Ev.search stage ∈ ragTurn o q → stage.filter = none) ∧
    (∀ (emb : Option (List Int)) (f : Filters), f ≠ [] →
        (mkVectorStage emb f).filter = some f) ∧
    (∀ emb : Option (List Int), (mkVectorStage emb []).filter = none) := by
  refine ⟨?_, ?_, fun _ => rfl⟩
  · intro o q stage hmem
    unfold ragTurn at hmem
    cases he : o.embed q with
    | error e =>
      rw [he] at hmem
      simp at hmem
    | ok resp =>
      rw [he] at hmem
      simp at hmem
      rcases hmem with h | hmem
      · rw [h]
        rfl
      · cases hs : o.search (mkVectorStage resp.embedding []) with
        | error e =>
          rw [hs] at hmem
          simp at hmem
        | ok docs =>
          rw [hs] at hmem
          simp at hmem
          cases hg : o.gen (mkPrompt (formatContext docs) q) with
          | error e =>
            rw [hg] at hmem
            simp at hmem
          | ok a =>
            rw [hg] at hmem
            simp at hmem
  · intro emb f h
    unfold mkVectorStage
    simp [List.length_pos.mpr h]

/-- Oracle for the C9 witness. -/
def oForWitness : Oracles :=
  { embed := fun _ => Except.ok ⟨some [1]⟩
    search := fun _ => Except.ok []
    gen := fun _ => Except.ok "a" }

/-- Witness for C9 at a concrete oracle and a concrete non-empty mapping. -/
theorem C9_fallback_search_unfiltered_witness :
    (mkVectorStage (some [1]) []).filter = none ∧
    (mkVectorStage none [("DeviceId", FilterVal.str "A")]).filter
      = some [("DeviceId", FilterVal.str "A")] :=
  ⟨C9_fallback_search_unfiltered.1 oForWitness "hello" (mkVectorStage (some [1]) []) (by decide),
   C9_fallback_search_unfiltered.2.1 none [("DeviceId", FilterVal.str "A")] (by decide)⟩


/-! ## The full dump (C7) -/

theorem stripEmbedding_cons (k' : String) (v : Value) (d : Doc) :
    stripEmbedding ((k', v) :: d) =
      if k' = "embedding" then stripEmbedding d else (k', v) :: stripEmbedding d := by
  by_cases h : k' = "embedding" <;> simp [stripEmbedding, h]

theorem lookup_cons (key k' : String) (v : Value) (d : Doc) :
    List.lookup key ((k', v) :: d) = if key = k' then some v else List.lookup key d := by
  by_cases h : key = k'
  · simp [List.lookup, h]
  · have hb : (key == k') = false := beq_eq_false_iff_ne.mpr h
    simp [List.lookup, hb, h]

theorem lookup_stripEmbedding (key : String) (d : Doc) :
    (stripEmbedding d).lookup key = if key = "embedding" then none else d.lookup key := by
  induction d with
  | nil => by_cases h : key = "embedding" <;> simp [stripEmbedding, h]
  | cons p d ih =>
    obtain ⟨k', v⟩ := p
    rw [stripEmbedding_cons]
    by_cases h' : k' = "embedding"
    · rw [if_pos h', ih, lookup_cons]
      by_cases hk : key = "embedding"
      · simp [hk]
      · have hkk : key ≠ k' := fun e => hk (e.trans h')
        rw [if_neg hk, if_neg hkk, if_neg hk]
    · rw [if_neg h', lookup_cons, lookup_cons, ih]
      by_cases hk : key = k'
      · have hke : key ≠ "embedding" := fun e => h' (hk.symm.trans e)
        rw [if_pos hk, if_neg hke, if_pos hk]
      · rw [if_neg hk]
        by_cases hke : key = "embedding"
        · rw [if_pos hke, if_pos hke]
        · rw [if_neg hke, if_neg hke, if_neg hk]

theorem lookup_stripEmbedding_self (d : Doc) :
    (stripEmbedding d).lookup "embedding" = none := by
  rw [lookup_stripEmbedding]
  simp

theorem lookup_stripEmbedding_other (d : Doc) (k : String) (h : k ≠ "embedding") :
    (stripEmbedding d).lookup k = d.lookup k := by
  rw [lookup_stripEmbedding, if_neg h]

/-- C7: the full-dump operation of a show-all-logs turn displays at most 50
records, each equal to the stored record with exactly the `embedding` field
removed: the displayed record has no `embedding` key, and every other key
looks up to the same value as in the stored record. -/
theorem C7_full_dump_strips_embedding :
    ∀ (store : Filters → List Doc) (q : String),
      (dumpDisplayed store q).length ≤ 50 ∧
      (∀ i : Nat, (dumpDisplayed store q).get? i
          = Option.map stripEmbedding (((store (extractFiltersOnly q)).take 50).get? i)) ∧
      (∀ d ∈ (store (extractFiltersOnly q)).take 50,
          (stripEmbedding d).lookup "embedding" = none) ∧
      (∀ (d : Doc) (k : String), k ≠ "embedding" →
          (stripEmbedding d).lookup k = d.lookup k) := by
  intro store q
  refine ⟨?_, ?_, ?_, ?_⟩
  · unfold dumpDisplayed
    rw [List.length_map]
    exact List.length_take_le 50 _
  · intro i
    unfold dumpDisplayed
    rw [List.get?_map]
  · intro d _
    exact lookup_stripEmbedding_self d
  · intro d k hk
    exact lookup_stripEmbedding_other d k hk

/-- A one-record store for the C7 witness. -/
def storeW : Filters → List Doc :=
  fun _ => [[("embedding", Value.vArr [Value.vNum 1]), ("DeviceId", Value.vStr "D1")]]

/-- Witness for C7 at a concrete store and document. -/
theorem C7_full_dump_strips_embedding_witness :
    (stripEmbedding [("embedding", Value.vArr [Value.vNum 1]), ("DeviceId", Value.vStr "D1")]).lookup
        "embedding" = none ∧
    (stripEmbedding [("embedding", Value.vArr [Value.vNum 1]), ("DeviceId", Value.vStr "D1")]).lookup
        "DeviceId"
      = ([("embedding", Value.vArr [Value.vNum 1]), ("DeviceId", Value.vStr "D1")] : Doc).lookup
          "DeviceId" :=
  ⟨(C7_full_dump_strips_embedding storeW "show logs").2.2.1
      [("embedding", Value.vArr [Value.vNum 1]), ("DeviceId", Value.vStr "D1")] (by simp [storeW]),
   (C7_full_dump_strips_embedding storeW "show logs").2.2.2
      [("embedding", Value.vArr [Value.vNum 1]), ("DeviceId", Value.vStr "D1")] "DeviceId"
      (by simp)⟩

/-! ## Context assembly and row flattening (C6) -/

/-- C6: the Context Assembler and the row flattening are total functions of
the retrieved documents: a flattened row has exactly one cell per requested
field; a field whose path reaches `null`/`undefined` flattens to the empty
string; and a document without a `LogData` object renders its nested
template lines as `undefined` instead of throwing. -/
theorem C6_context_and_rows_total :
    (∀ (fields : List String) (res : Value),
        (flattenRow fields res).length = fields.length) ∧
    (∀ (res : Value) (f : String), nullish (pathValue res f) = true →
        flattenField res f = Value.vStr "") ∧
    (∀ (fs : List (String × Value)) (i : Nat), fs.lookup "LogData" = none →
        contextBlock i (Value.vObj fs) =
          "# Log " ++ toString (i + 1) ++
          "\nDeviceId: " ++ jsStr (getField (Value.vObj fs) "DeviceId") ++
          "\nSummary: " ++ jsStr (getField (Value.vObj fs) "LogSummary") ++
          "\nState: " ++ "undefined" ++
          "\nModel: " ++ "undefined" ++
          "\nWard: " ++ "undefined" ++
          "\nTimestamp: " ++ jsStr (getField (Value.vObj fs) "Timestamp")) := by
  refine ⟨?_, ?_, ?_⟩
  · intro fields res
    unfold flattenRow
    exact List.length_map fields (flattenField res)
  · intro res f h
    simp [flattenField, h]
  · intro fs i h
    have hopt : optGet (Value.vObj fs) "LogData" = Value.vUndef := by
      simp [optGet, getField, h]
    have hu : ∀ k : String, optGet Value.vUndef k = Value.vUndef := fun _ => rfl
    have hjs : jsStr Value.vUndef = "undefined" := by simp [jsStr]
    simp only [contextBlock, hopt, hu, hjs]

/-- Witness for C6 at a concrete document missing its nested object. -/
theorem C6_context_and_rows_total_witness :
    (flattenRow ["DeviceId", "LogData.Model"] (Value.vObj [("DeviceId", Value.vStr "D1")])).length
        = ["DeviceId", "LogData.Model"].length ∧
    flattenField (Value.vObj [("DeviceId", Value.vStr "D1")]) "LogData.Model" = Value.vStr "" ∧
    contextBlock 0 (Value.vObj [("DeviceId", Value.vStr "D1")]) =
      "# Log " ++ toString (0 + 1) ++
      "\nDeviceId: " ++ jsStr (getField (Value.vObj [("DeviceId", Value.vStr "D1")]) "DeviceId") ++
      "\nSummary: " ++ jsStr (getField (Value.vObj [("DeviceId", Value.vStr "D1")]) "LogSummary") ++
      "\nState: " ++ "undefined" ++
      "\nModel: " ++ "undefined" ++
      "\nWard: " ++ "undefined" ++
      "\nTimestamp: " ++ jsStr (getField (Value.vObj [("DeviceId", Value.vStr "D1")]) "Timestamp") :=
  ⟨C6_context_and_rows_total.1 ["DeviceId", "LogData.Model"] (Value.vObj [("DeviceId", Value.vStr "D1")]),
   C6_context_and_rows_total.2.1 (Value.vObj [("DeviceId", Value.vStr "D1")]) "LogData.Model" (by rfl),
   C6_context_and_rows_total.2.2 [("DeviceId", Value.vStr "D1")] 0 (by rfl)⟩

/-! ## The filter normalizer (C2) -/

theorem ws_not_fieldChar (c : Char) (h : isWs c = true) : isFieldChar c = false := by
  unfold isWs at h
  simp only [Bool.or_eq_true, decide_eq_true_eq] at h
  rcases h with ((((h | h) | h) | h) | h) | h <;> subst h <;> decide

theorem filter_isFieldChar_dropWhile (l : List Char) :
    (l.dropWhile isWs).filter isFieldChar = l.filter isFieldChar := by
  induction l with
  | nil => rfl
  | cons a l ih =>
    rw [List.dropWhile_cons]
    by_cases h : isWs a = true
    · rw [if_pos h, ih, List.filter_cons, ws_not_fieldChar a h]
      simp
    · rw [if_neg h]

theorem filter_isFieldChar_rtrimL (l : List Char) :
    (rtrimL l).filter isFieldChar = l.filter isFieldChar := by
  induction l with
  | nil => rfl
  | cons c r ih =>
    rw [rtrimL]
    cases h : rtrimL r with
    | nil =>
      rw [h] at ih
      simp only [List.filter_nil] at ih
      by_cases hw : isWs c = true
      · rw [if_pos hw, List.filter_cons, ws_not_fieldChar c hw]
        simp [← ih]
      · rw [if_neg hw, List.filter_cons, List.filter_cons, ← ih]
        simp
    | cons y ys =>
      rw [h] at ih
      rw [List.filter_cons, ih, List.filter_cons]

theorem filter_isFieldChar_trimL (l : List Char) :
    (trimL l).filter isFieldChar = l.filter isFieldChar := by
  unfold trimL
  rw [filter_isFieldChar_rtrimL, filter_isFieldChar_dropWhile]

/-! ## The fields-segment split (C4) -/

theorem foldl_push_filterMap {α β : Type} (l : List α) (clean : α → List Char)
    (emit : List Char → β) (init : List β) :
    l.foldl (fun acc f => if clean f ≠ [] then acc ++ [emit (clean f)] else acc) init
      = init ++ (((l.map clean).filter (fun cl => cl ≠ [])).map emit) := by
  induction l generalizing init with
  | nil => simp
  | cons a l ih =>
    rw [List.foldl_cons]
    by_cases h : clean a = []
    · rw [ih]
      simp [h]
    · rw [ih]
      simp [h]

theorem processRawFields_pipeline (t : AliasTable) (raw : List Char) :
    processRawFields t raw
      = (((splitAndComma raw).map (fun f => f.filter isFieldChar)).filter
          (fun cl => cl ≠ [])).map (fun cl => resolveAlias t (String.mk cl)) := by
  have h1 : processRawFields t raw
      = [] ++ ((((splitAndComma raw).map (fun f => (trimL f).filter isFieldChar)).filter
          (fun cl => cl ≠ [])).map (fun cl => resolveAlias t (String.mk cl))) :=
    foldl_push_filterMap (splitAndComma raw) (fun f => (trimL f).filter isFieldChar)
      (fun cl => resolveAlias t (String.mk cl)) []
  rw [h1, List.nil_append,
    List.map_eq_map_iff.mpr (fun f _ => filter_isFieldChar_trimL f)]

/-- C4 counterexample: the claim's `not on occurrences of the letters "and"
inside a token` fails on the code. For the input `list brand` the spec-side
reading demands the single field `brand`, but `split(/,|and/)` cuts inside
the token and the extractor produces `br`. -/
theorem C4_word_and_counterexample :
    (extractFieldsAndFilters "list brand").1 = ["br"] ∧
    (extractFieldsAndFilters "list brand").1 ≠ ["brand"] := by
  constructor
  · decide
  · decide

/-- C4 (amended): the `<fields>` segment is split on `,` or on **any**
occurrence of the substring `and` (case-sensitive, also inside a token);
each piece is stripped of characters outside `[a-zA-Z0-9_.]`, empty pieces
are dropped, and the survivors are alias-resolved — and
`list deviceid and model` yields exactly the fields
`[DeviceId, LogData.Model]` with an empty filter mapping. -/
theorem C4_fields_split_amended :
    (∀ (t : AliasTable) (raw : List Char),
      processRawFields t raw
        = (((splitAndComma raw).map (fun f => f.filter isFieldChar)).filter
            (fun cl => cl ≠ [])).map (fun cl => resolveAlias t (String.mk cl))) ∧
    extractFieldsAndFilters "list deviceid and model" = (["DeviceId", "LogData.Model"], []) :=
  ⟨processRawFields_pipeline, by decide⟩

/-! ## `list unique <x>` (C5) -/

theorem listUniqueMatch_canonical (c : Char) (cs : List Char)
    (hc : isWs c = false) (hnl : hasLineTerm (c :: cs) = false) :
    listUniqueMatch (['l', 'i', 's', 't', ' ', 'u', 'n', 'i', 'q', 'u', 'e', ' '] ++ (c :: cs))
      = some (c :: cs) := by
  show listUniqueMatch
      ('l' :: 'i' :: 's' :: 't' :: ' ' :: 'u' :: 'n' :: 'i' :: 'q' :: 'u' :: 'e' :: ' ' :: c :: cs)
      = some (c :: cs)
  unfold listUniqueMatch
  rw [show dropPrefCI ['l', 'i', 's', 't']
      ('l' :: 'i' :: 's' :: 't' :: ' ' :: 'u' :: 'n' :: 'i' :: 'q' :: 'u' :: 'e' :: ' ' :: c :: cs)
      = some (' ' :: 'u' :: 'n' :: 'i' :: 'q' :: 'u' :: 'e' :: ' ' :: c :: cs) from rfl,
    Option.some_bind,
    show skipWs1 (' ' :: 'u' :: 'n' :: 'i' :: 'q' :: 'u' :: 'e' :: ' ' :: c :: cs)
      = some ('u' :: 'n' :: 'i' :: 'q' :: 'u' :: 'e' :: ' ' :: c :: cs) from rfl,
    Option.some_bind,
    show dropPrefCI ['u', 'n', 'i', 'q', 'u', 'e']
      ('u' :: 'n' :: 'i' :: 'q' :: 'u' :: 'e' :: ' ' :: c :: cs) = some (' ' :: c :: cs) from rfl,
    Option.some_bind]
  simp [capDotPlus, List.takeWhile_cons, List.dropWhile_cons, hc, hnl,
    show isWs ' ' = true from rfl]

/-- C5: for every `list unique <x>` input (x non-empty, starting at the
first non-blank after `unique`, containing no line terminator — the `(.+)$`
capture cannot cross LF or CR), the extracted field is `<x>`
stripped of all characters outside `[a-zA-Z0-9_.]` and alias-resolved; the
alias table is consulted with the lower-cased name and unknown names pass
through unchanged. -/
theorem C5_list_unique_extraction :
    (∀ (c : Char) (cs : List Char), isWs c = false → hasLineTerm (c :: cs) = false →
      uniqueFieldOf ("list unique " ++ String.mk (c :: cs))
        = some (resolveAlias FIELD_ALIASES (String.mk ((c :: cs).filter isFieldChar)))) ∧
    (∀ s : String, FIELD_ALIASES.lookup (lowerStr s) = none →
      resolveAlias FIELD_ALIASES s = s) ∧
    (∀ (s v : String), FIELD_ALIASES.lookup (lowerStr s) = some v →
      resolveAlias FIELD_ALIASES s = v) := by
  refine ⟨?_, ?_, ?_⟩
  · intro c cs hc hnl
    unfold uniqueFieldOf uniqueFieldOfT
    have h0 : ("list unique " ++ String.mk (c :: cs)).toList
        = ['l', 'i', 's', 't', ' ', 'u', 'n', 'i', 'q', 'u', 'e', ' '] ++ (c :: cs) := rfl
    rw [h0, listUniqueMatch_canonical c cs hc hnl, Option.map_some',
      filter_isFieldChar_trimL]
  · intro s h
    unfold resolveAlias
    rw [h]
    rfl
  · intro s v h
    unfold resolveAlias
    rw [h]
    rfl

/-- Witness for C5 at Scenario B: `list unique ward` resolves to
`LogData.Ward`. -/
theorem C5_list_unique_extraction_witness :
    uniqueFieldOf "list unique ward" = some "LogData.Ward" := by
  have h := C5_list_unique_extraction.1 'w' ['a', 'r', 'd'] (by decide) (by decide)
  exact h.trans (by decide)

end MongoRag
